import Mathlib

/-!
Verification of the delulu-celulu pan/zoom/physics/collision engine
(the `ImageCanvas` component) against its natural-language specification.

The TypeScript source is shallowly embedded here: JavaScript `number`s are
modelled as exact rationals (`ℚ`); the mutable component state (offset,
velocity, bounds, the marker list, the score) is passed explicitly; the
`requestAnimationFrame` scheduling is modelled by a `Bool` "another frame
was scheduled" result where a claim needs it.  Purely visual state
(glow colours, edge-hit flags, arrow rotation) is not modelled.
-/

namespace DeluluCelulu

/-- Marker kind: `'obstacle' | 'powerup'` in the source. -/
inductive MType where
  | obstacle
  | powerup
deriving DecidableEq, Repr

/-- A marker of the marker field: `{id, x, y, type, active}` with `x`, `y`
in percent space `[0,100]`. -/
structure Marker where
  id : Nat
  x : ℚ
  y : ℚ
  type : MType
  active : Bool
deriving DecidableEq, Repr

/-- A measured on-screen rectangle (only width/height are read by the code). -/
structure Rect where
  width : ℚ
  height : ℚ
deriving DecidableEq, Repr

/-- The `boundsRef` record of the canvas: soft (image-edge) and hard
(overshoot) clamp limits per axis. -/
structure Bounds where
  softMinX : ℚ
  softMaxX : ℚ
  softMinY : ℚ
  softMaxY : ℚ
  hardMinX : ℚ
  hardMaxX : ℚ
  hardMinY : ℚ
  hardMaxY : ℚ
deriving DecidableEq, Repr

/-- `clampOffset` from the source: clamp an offset to the hard bounds,
component-wise `Math.min(Math.max(v, hardMin), hardMax)`. -/
def clampOffset (b : Bounds) (x y : ℚ) : ℚ × ℚ :=
  (min (max x b.hardMinX) b.hardMaxX, min (max y b.hardMinY) b.hardMaxY)

/-- The bounds formula of `computeBounds` from the source, as a function of
the measured container and image rectangles: half-excess per axis is
`Math.max(0, (image − container)/2)`, soft bounds are `±halfExcess`,
overshoot is `container × 0.5`, hard bounds are soft bounds widened by the
overshoot. -/
def computeBounds (c i : Rect) : Bounds :=
  let halfExcessX := max 0 ((i.width - c.width) / 2)
  let halfExcessY := max 0 ((i.height - c.height) / 2)
  let softMinX := -halfExcessX
  let softMaxX := halfExcessX
  let softMinY := -halfExcessY
  let softMaxY := halfExcessY
  let overshootX := c.width * 0.5
  let overshootY := c.height * 0.5
  { softMinX := softMinX
    softMaxX := softMaxX
    softMinY := softMinY
    softMaxY := softMaxY
    hardMinX := softMinX - overshootX
    hardMaxX := softMaxX + overshootX
    hardMinY := softMinY - overshootY
    hardMaxY := softMaxY + overshootY }

/-- The full `computeBounds` call from the source including its early
return: `if (!containerRef.current || !imageRef.current) return;` keeps the
previously stored bounds when either element reference is absent (`none`);
otherwise the bounds are recomputed from the measured rectangles.  The
subsequent `setOffset(prev => clampOffset(...))` side effect is modelled by
`clampOffset` separately. -/
def computeBoundsUpd : Option Rect → Option Rect → Bounds → Bounds
  | some c, some i, _ => computeBounds c i
  | none, _, prev => prev
  | _, none, prev => prev

/-- The offset update of `handlePointerMove` from the source: add the drag
delta to the previous offset and clamp to the hard bounds. -/
def dragMove (b : Bounds) (prev : ℚ × ℚ) (dx dy : ℚ) : ℚ × ℚ :=
  clampOffset b (prev.1 + dx) (prev.2 + dy)

/-- One `step` of `startMomentum` from the source, acting on the offset and
velocity.  Result: (new offset, new velocity, whether another frame was
scheduled).  When both velocity components are below the 0.01 stop epsilon
the step clears the animation handle and returns without touching the
offset and without rescheduling.  Otherwise the offset is advanced by
`velocity × dt`, each axis is bounced at its soft bound (position clamped to
the bound, velocity negated and damped by 0.4), the result is finally
clamped to the hard bounds, and the velocity is decayed.  The decay factor,
`Math.exp(-0.0018 * dt)` in the source, is irrational and is therefore
passed in as the parameter `decay`; no verified claim depends on its value.
The transient edge-hit visual flag is not modelled, and the collision pass
run at the new offset is modelled by `handleCollisions` separately. -/
def momentumStep (decay dt : ℚ) (b : Bounds) (off vel : ℚ × ℚ) :
    (ℚ × ℚ) × (ℚ × ℚ) × Bool :=
  if |vel.1| < 0.01 ∧ |vel.2| < 0.01 then
    (off, vel, false)
  else
    let nx0 := off.1 + vel.1 * dt
    let ny0 := off.2 + vel.2 * dt
    let bounceDamping : ℚ := 0.4
    let px :=
      if nx0 > b.softMaxX then (b.softMaxX, -vel.1 * bounceDamping)
      else if nx0 < b.softMinX then (b.softMinX, -vel.1 * bounceDamping)
      else (nx0, vel.1)
    let py :=
      if ny0 > b.softMaxY then (b.softMaxY, -vel.2 * bounceDamping)
      else if ny0 < b.softMinY then (b.softMinY, -vel.2 * bounceDamping)
      else (ny0, vel.2)
    let nx2 := min (max px.1 b.hardMinX) b.hardMaxX
    let ny2 := min (max py.1 b.hardMinY) b.hardMaxY
    ((nx2, ny2), (px.2 * decay, py.2 * decay), true)

/-- An offset lies within the hard bounds of `b`. -/
def InHard (b : Bounds) (p : ℚ × ℚ) : Prop :=
  b.hardMinX ≤ p.1 ∧ p.1 ≤ b.hardMaxX ∧ b.hardMinY ≤ p.2 ∧ p.2 ≤ b.hardMaxY

/-- The per-marker hit test of `handleCollisions` from the source: the
marker's percent position is converted to image-space pixels relative to
the image centre (`((m.x − 50)/100) * imgW + nextX`, same for y) and the
squared distance is compared against the squared collision radius
`24 * 24 = 576`. -/
def inRange (imgW imgH nx ny : ℚ) (m : Marker) : Bool :=
  let dx := (m.x - 50) / 100 * imgW + nx
  let dy := (m.y - 50) / 100 * imgH + ny
  decide (dx * dx + dy * dy ≤ 576)

/-- The `prev.map(...)` pass of `handleCollisions` from the source together
with its closure-mutated `hitType` variable, threaded as the accumulator
`acc`: markers are visited in list order; an inactive marker is returned
unchanged; an active marker passing the hit test is returned deactivated
and overwrites `acc` with its type (so the final accumulator holds the type
of the LAST matching marker).  There is no early exit. -/
def scanMarkers (f : Marker → Bool) : List Marker → Option MType → List Marker × Option MType
  | [], acc => ([], acc)
  | m :: rest, acc =>
      if m.active && f m then
        let r := scanMarkers f rest (some m.type)
        ({ m with active := false } :: r.1, r.2)
      else
        let r := scanMarkers f rest acc
        (m :: r.1, r.2)

/-- The value `Math.hypot(vx, vy) || 1` from `handleCollisions`, tracked as
a squared speed: when the true squared speed `s2` is zero the `|| 1`
fallback replaces the speed by `1` (squared `1`); otherwise the speed (and
hence its square) is kept. -/
def speedOrOneSq (s2 : ℚ) : ℚ := if s2 = 0 then 1 else s2

/-- The marker-type branch of the velocity modification in
`handleCollisions`, tracked as a map on the squared speed `s2 = vx² + vy²`.
Every branch of the source multiplies both velocity components by one
common nonnegative scalar — obstacle: `× 0.15`; powerup: `× 2.3`, then
`× (1.8 / newSpeed)` when the boosted speed exceeds the 1.8 cap — so the
squared speed determines the squared speed of the result exactly, and the
source's comparison `newSpeed > maxSpeed` is rendered as the equivalent
comparison of squares (both sides are nonnegative). -/
def hitSpeedSq (t : MType) (s2 : ℚ) : ℚ :=
  match t with
  | .obstacle => (0.15 * 0.15) * s2
  | .powerup =>
      let boosted := (2.3 * 2.3) * s2
      if boosted > 1.8 * 1.8 then 1.8 * 1.8 else boosted

/-- The full velocity modification of `handleCollisions` on the squared
speed, including the final guard
`if (!Number.isFinite(vx) || !Number.isFinite(vy) || speed === 0)` that
overwrites the velocity with the fixed nudge `(0.45, 0.45)` (squared speed
`0.45² + 0.45²`).  All values of the rational model are finite, so only the
`speed === 0` disjunct remains, where `speed` is the `|| 1` value
`speedOrOneSq` computed from the INCOMING velocity. -/
def hitSpeedSqFull (t : MType) (s2 : ℚ) : ℚ :=
  if speedOrOneSq s2 = 0 then 0.45 * 0.45 + 0.45 * 0.45
  else hitSpeedSq t s2

/-- `handleCollisions` from the source, acting on the marker list and the
velocity (tracked by its squared speed, see `hitSpeedSq`): a no-op when the
measured image width or height is zero (`if (!imgW || !imgH) return;`);
otherwise the marker scan runs, and when it reported a hit type the hit is
reported to the caller (the returned `Option MType`, fed to `onMarkerHit`
and the glow) and the velocity is modified. -/
def handleCollisions (imgW imgH nx ny : ℚ) (ms : List Marker) (velSq : ℚ) :
    List Marker × Option MType × ℚ :=
  if imgW = 0 ∨ imgH = 0 then (ms, none, velSq)
  else
    let r := scanMarkers (inRange imgW imgH nx ny) ms none
    match r.2 with
    | none => (r.1, none, velSq)
    | some t => (r.1, some t, hitSpeedSqFull t velSq)

/-- Pointwise effect of the `handleCollisions` marker pass: deactivate a
marker exactly when it is active and passes the hit test. -/
def deactivateIfHit (f : Marker → Bool) (m : Marker) : Marker :=
  if m.active && f m then { m with active := false } else m

/-- Last element of a list of hit types, with a fallback accumulator:
the value a left-to-right overwritten mutable variable ends with. -/
def lastOr (l : List MType) (acc : Option MType) : Option MType :=
  match l.getLast? with
  | some t => some t
  | none => acc

/-- The zoom-reveal interpolation of the `animate` callback from the
source, sampled at elapsed time `t` (ms) for a captured start state
`(startOffX, startOffY, startSize)`: progress is `min(t / 800, 1)`, eased
by the ease-out cubic `1 − (1 − p)³`, and each component is linearly
interpolated from the start value to the neutral target
`(offset (0,0), size 100)`. -/
def zoomSample (startOffX startOffY startSize t : ℚ) : ℚ × ℚ × ℚ :=
  let progress := min (t / 800) 1
  let eased := 1 - (1 - progress) ^ 3
  (startOffX + (0 - startOffX) * eased,
   startOffY + (0 - startOffY) * eased,
   startSize + (100 - startSize) * eased)

/-- The remaining fraction of the start state at elapsed time `t`:
`(1 − min(t/800, 1))³`.  `zoomSample` scales every component's deviation
from neutral by this factor. -/
def zoomRemaining (t : ℚ) : ℚ := (1 - min (t / 800) 1) ^ 3

/-- The per-frame score countdown updater from the source:
`prev <= 0 → 0`, else `prev − dt` floored at zero. -/
def scoreTick (dt prev : ℚ) : ℚ :=
  if prev ≤ 0 then 0
  else if prev - dt > 0 then prev - dt else 0

/-- The `onMarkerHit` score delta from the source App:
powerup → `prev + 500`, obstacle → `Math.max(0, prev − 500)`. -/
def scoreHit (t : MType) (prev : ℚ) : ℚ :=
  match t with
  | .powerup => prev + 500
  | .obstacle => max 0 (prev - 500)

/-- An event acting on the score: a countdown frame of `dt` elapsed
milliseconds, or a resolved marker hit of the given type. -/
inductive ScoreEvent where
  | tick (dt : ℚ)
  | hit (t : MType)

/-- Apply one score event. -/
def scoreStep (s : ℚ) : ScoreEvent → ℚ
  | .tick dt => scoreTick dt s
  | .hit t => scoreHit t s

/-- Run a sequence of score events from an initial score (the App starts at
100000). -/
def runScore (s0 : ℚ) (evs : List ScoreEvent) : ℚ := evs.foldl scoreStep s0

/-- `isFarEnough` from the marker initializer: a candidate `(x, y)` is far
enough from every previously accepted marker when no squared distance is
below `minDistance² = 5 * 5` (the source loop returns `false` on the first
violation). -/
def isFarEnough (x y : ℚ) (existing : List Marker) : Bool :=
  existing.all fun m =>
    let dx := x - m.x
    let dy := y - m.y
    !(decide (dx * dx + dy * dy < 5 * 5))

/-- The rejection-sampling `while` loop of the marker initializer from the
source.  `rnd n` is the pair of `Math.random()` draws of attempt `n` (each
in `[0,1)`); `typeOf` is the deterministic type pattern applied to the
insertion index; `count` is the target count; `fuel` is the number of
attempts still allowed by the `attempts < budget` bound, so the loop
terminates after at most `budget` attempts by construction.  Per attempt a
candidate `(10 + r₁ * 80, 10 + r₂ * 80)` is drawn and appended (with
`id = items.length` and `active = true`) only when far enough from all
accepted markers. -/
def genLoop (rnd : Nat → ℚ × ℚ) (typeOf : Nat → MType) (count : Nat) :
    Nat → Nat → List Marker → List Marker
  | 0, _, items => items
  | fuel + 1, attempt, items =>
      if items.length < count then
        let x := 10 + (rnd attempt).1 * 80
        let y := 10 + (rnd attempt).2 * 80
        if isFarEnough x y items then
          genLoop rnd typeOf count fuel (attempt + 1)
            (items ++ [{ id := items.length, x := x, y := y,
                         type := typeOf items.length, active := true }])
        else
          genLoop rnd typeOf count fuel (attempt + 1) items
      else items

/-- The marker initializer of the feature-complete canvas variant:
50 markers, 3000 attempts, type pattern `items.length % 5 < 2 ? obstacle :
powerup`. -/
def markersInit (rnd : Nat → ℚ × ℚ) : List Marker :=
  genLoop rnd (fun k => if k % 5 < 2 then .obstacle else .powerup) 50 3000 0 []

/-- The marker initializer of the earlier canvas variant: 10 markers, 1000
attempts, type pattern `items.length % 2 === 0 ? obstacle : powerup`. -/
def markersInitAlt (rnd : Nat → ℚ × ℚ) : List Marker :=
  genLoop rnd (fun k => if k % 2 = 0 then .obstacle else .powerup) 10 1000 0 []

/-- Two markers are at squared distance at least `25 = 5²`, i.e. at
Euclidean distance at least the minimum spacing 5. -/
def FarApart (a b : Marker) : Prop :=
  25 ≤ (a.x - b.x) * (a.x - b.x) + (a.y - b.y) * (a.y - b.y)

/-- A marker's coordinates lie in the `[10, 90]` percent field. -/
def InField (m : Marker) : Prop :=
  10 ≤ m.x ∧ m.x ≤ 90 ∧ 10 ≤ m.y ∧ m.y ≤ 90

end DeluluCelulu

namespace DeluluCelulu

lemma clamp_mem {lo hi x : ℚ} (h : lo ≤ hi) :
    lo ≤ min (max x lo) hi ∧ min (max x lo) hi ≤ hi :=
  ⟨le_min (le_max_right x lo) h, min_le_right _ _⟩

lemma clampOffset_inHard (b : Bounds) (hx : b.hardMinX ≤ b.hardMaxX)
    (hy : b.hardMinY ≤ b.hardMaxY) (x y : ℚ) : InHard b (clampOffset b x y) :=
  ⟨(clamp_mem hx).1, (clamp_mem hx).2, (clamp_mem hy).1, (clamp_mem hy).2⟩

lemma computeBounds_wf (c i : Rect) (hw : 0 ≤ c.width) (hh : 0 ≤ c.height) :
    (computeBounds c i).hardMinX ≤ (computeBounds c i).hardMaxX ∧
    (computeBounds c i).hardMinY ≤ (computeBounds c i).hardMaxY := by
  have h1 : (0 : ℚ) ≤ max 0 ((i.width - c.width) / 2) := le_max_left 0 _
  have h2 : (0 : ℚ) ≤ max 0 ((i.height - c.height) / 2) := le_max_left 0 _
  have h3 : (0 : ℚ) ≤ c.width * 0.5 := by nlinarith
  have h4 : (0 : ℚ) ≤ c.height * 0.5 := by nlinarith
  constructor <;> · simp only [computeBounds]; linarith

/-- Claim C2: every drag-move offset update and every momentum step leaves
the offset within the hard bounds of the current bounds record.  First
conjunct: the drag-move update always lands in the hard interval (the
bounds record being well-formed, `hardMin ≤ hardMax` per axis).  Second
conjunct: a momentum step preserves membership in the hard interval (the
below-epsilon step leaves the offset untouched; the updating step ends with
the hard clamp).  Third conjunct: every bounds record produced by
`computeBounds` from nonnegative measured container dimensions is
well-formed in this sense, as is the all-zero initial record. -/
theorem c2_offset_within_hard_bounds (b : Bounds)
    (hx : b.hardMinX ≤ b.hardMaxX) (hy : b.hardMinY ≤ b.hardMaxY) :
    (∀ (prev : ℚ × ℚ) (dx dy : ℚ), InHard b (dragMove b prev dx dy)) ∧
    (∀ (decay dt : ℚ) (off vel : ℚ × ℚ),
      InHard b off → InHard b (momentumStep decay dt b off vel).1) ∧
    (∀ c i : Rect, 0 ≤ c.width → 0 ≤ c.height →
      (computeBounds c i).hardMinX ≤ (computeBounds c i).hardMaxX ∧
      (computeBounds c i).hardMinY ≤ (computeBounds c i).hardMaxY) := by
  refine ⟨fun prev dx dy => clampOffset_inHard b hx hy _ _, ?_, fun c i => computeBounds_wf c i⟩
  intro decay dt off vel hoff
  by_cases hstop : |vel.1| < 0.01 ∧ |vel.2| < 0.01
  · simpa [momentumStep, hstop] using hoff
  · simp only [momentumStep, if_neg hstop]
    exact ⟨(clamp_mem hx).1, (clamp_mem hx).2, (clamp_mem hy).1, (clamp_mem hy).2⟩

/-- Witness for C2 at a concrete well-formed bounds record and drag. -/
theorem c2_offset_within_hard_bounds_witness :
    InHard ⟨0, 0, 0, 0, -2, 2, -2, 2⟩ (dragMove ⟨0, 0, 0, 0, -2, 2, -2, 2⟩ (0, 0) 5 5) :=
  (c2_offset_within_hard_bounds ⟨0, 0, 0, 0, -2, 2, -2, 2⟩ (by norm_num) (by norm_num)).1
    (0, 0) 5 5

/-- Counterexample to claim C4: with both elements present but measured at
size 0×0 (degenerate), `computeBounds` does NOT retain the previously
stored bounds — it recomputes them (to the all-zero record), because the
source's early return only tests the element references for nullity, not
the measured sizes. -/
theorem c4_counterexample :
    computeBoundsUpd (some ⟨0, 0⟩) (some ⟨0, 0⟩) ⟨-1, 1, -1, 1, -2, 2, -2, 2⟩ ≠
      ⟨-1, 1, -1, 1, -2, 2, -2, 2⟩ := by
  norm_num [computeBoundsUpd, computeBounds, Bounds.mk.injEq]

/-- Claim C4, amended: `computeBounds` is a no-op (previous bounds
retained) exactly when the container or the image element reference is
absent; whenever both elements are present the bounds are recomputed from
the measured rectangles, including when a measured size is zero or
negative — there is no degenerate-size guard. -/
theorem c4_bounds_noop_amended :
    (∀ (i : Option Rect) (prev : Bounds), computeBoundsUpd none i prev = prev) ∧
    (∀ (c : Option Rect) (prev : Bounds), computeBoundsUpd c none prev = prev) ∧
    (∀ (c i : Rect) (prev : Bounds), computeBoundsUpd (some c) (some i) prev = computeBounds c i) := by
  refine ⟨fun i prev => ?_, fun c prev => ?_, fun c i prev => rfl⟩
  · cases i <;> rfl
  · cases c <;> rfl

/-- Claim C7: a momentum step at which both velocity components are below
the 0.01 px/ms stop epsilon performs no offset update and schedules no
further frame (third component `false`): the loop terminates. -/
theorem c7_momentum_step_stops (decay dt : ℚ) (b : Bounds) (off vel : ℚ × ℚ)
    (h1 : |vel.1| < 0.01) (h2 : |vel.2| < 0.01) :
    momentumStep decay dt b off vel = (off, vel, false) := by
  simp [momentumStep, h1, h2]

/-- Witness for C7 at a concrete below-epsilon velocity. -/
theorem c7_momentum_step_stops_witness :
    momentumStep 1 16 ⟨0, 0, 0, 0, -2, 2, -2, 2⟩ (3, 4) (0, 0) = ((3, 4), (0, 0), false) :=
  c7_momentum_step_stops 1 16 ⟨0, 0, 0, 0, -2, 2, -2, 2⟩ (3, 4) (0, 0)
    (by norm_num) (by norm_num)

/-- Counterexample to claim C8: for a 300×300 container with a 150×150
image (image smaller than the container), the code's soft bound is 0
(the half-excess is floored at zero by `Math.max(0, ...)`), not the claimed
`(imageDimension − containerDimension)/2 = −75`. -/
theorem c8_counterexample :
    (computeBounds ⟨300, 300⟩ ⟨150, 150⟩).softMaxX = 0 ∧
    ((150 : ℚ) - 300) / 2 = -75 ∧
    (computeBounds ⟨300, 300⟩ ⟨150, 150⟩).softMaxX ≠ ((150 : ℚ) - 300) / 2 := by
  norm_num [computeBounds]

/-- Claim C8, amended: for all positive container and image dimensions,
`computeBounds` produces per-axis soft bounds `±max(0, (image −
container)/2)` (the half-excess floored at zero) and hard bounds equal to
the soft bounds expanded by `container × 0.5`; the hard interval therefore
always contains the soft interval, and a 300×300 container with an
1800×1800 image yields soft bounds ±750 and hard bounds ±900 per axis. -/
theorem c8_bounds_formula_amended (c i : Rect) (hcw : 0 < c.width) (hch : 0 < c.height) :
    (computeBounds c i).softMaxX = max 0 ((i.width - c.width) / 2) ∧
    (computeBounds c i).softMinX = -max 0 ((i.width - c.width) / 2) ∧
    (computeBounds c i).softMaxY = max 0 ((i.height - c.height) / 2) ∧
    (computeBounds c i).softMinY = -max 0 ((i.height - c.height) / 2) ∧
    (computeBounds c i).hardMaxX = (computeBounds c i).softMaxX + c.width * 0.5 ∧
    (computeBounds c i).hardMinX = (computeBounds c i).softMinX - c.width * 0.5 ∧
    (computeBounds c i).hardMaxY = (computeBounds c i).softMaxY + c.height * 0.5 ∧
    (computeBounds c i).hardMinY = (computeBounds c i).softMinY - c.height * 0.5 ∧
    (computeBounds c i).hardMinX ≤ (computeBounds c i).softMinX ∧
    (computeBounds c i).softMaxX ≤ (computeBounds c i).hardMaxX ∧
    (computeBounds c i).hardMinY ≤ (computeBounds c i).softMinY ∧
    (computeBounds c i).softMaxY ≤ (computeBounds c i).hardMaxY ∧
    computeBounds ⟨300, 300⟩ ⟨1800, 1800⟩ = ⟨-750, 750, -750, 750, -900, 900, -900, 900⟩ := by
  have h3 : (0 : ℚ) ≤ c.width * 0.5 := by nlinarith
  have h4 : (0 : ℚ) ≤ c.height * 0.5 := by nlinarith
  refine ⟨rfl, rfl, rfl, rfl, rfl, rfl, rfl, rfl, ?_, ?_, ?_, ?_, by norm_num [computeBounds]⟩ <;>
    · simp only [computeBounds]; linarith

/-- Witness for C8 (amended) at the concrete 300×300 / 1800×1800 scenario. -/
theorem c8_bounds_formula_amended_witness :
    computeBounds ⟨300, 300⟩ ⟨1800, 1800⟩ = ⟨-750, 750, -750, 750, -900, 900, -900, 900⟩ :=
  (c8_bounds_formula_amended ⟨300, 300⟩ ⟨1800, 1800⟩ (by norm_num) (by norm_num)).2.2.2.2.2.2.2.2.2.2.2.2

lemma lastOr_cons (a : MType) (l : List MType) (acc : Option MType) :
    lastOr (a :: l) acc = lastOr l (some a) := by
  cases l with
  | nil => rfl
  | cons b t =>
    unfold lastOr
    rw [List.getLast?_cons_cons]
    cases h : (b :: t).getLast? with
    | some x => rfl
    | none => exact absurd h (by simp)

lemma lastOr_none (l : List MType) : lastOr l none = l.getLast? := by
  unfold lastOr
  cases h : l.getLast? <;> rfl

lemma deactivateIfHit_pos {f : Marker → Bool} {m : Marker} (h : (m.active && f m) = true) :
    deactivateIfHit f m = { m with active := false } := by
  unfold deactivateIfHit
  exact if_pos h

lemma deactivateIfHit_neg {f : Marker → Bool} {m : Marker} (h : ¬(m.active && f m) = true) :
    deactivateIfHit f m = m := by
  unfold deactivateIfHit
  exact if_neg h

lemma scanMarkers_eq (f : Marker → Bool) :
    ∀ (ms : List Marker) (acc : Option MType),
      scanMarkers f ms acc =
        (ms.map (deactivateIfHit f),
         lastOr ((ms.filter fun m => m.active && f m).map Marker.type) acc) := by
  intro ms
  induction ms with
  | nil => intro acc; rfl
  | cons m rest ih =>
    intro acc
    by_cases h : (m.active && f m) = true
    · simp [scanMarkers, if_pos h, ih, List.filter_cons, h, lastOr_cons,
        deactivateIfHit_pos h]
    · have hf : (m.active && f m) = false := by simpa using h
      simp [scanMarkers, if_neg h, ih, List.filter_cons, hf, deactivateIfHit_neg h]

lemma handleCollisions_fst (imgW imgH nx ny : ℚ) (ms : List Marker) (v : ℚ)
    (hg : ¬(imgW = 0 ∨ imgH = 0)) :
    (handleCollisions imgW imgH nx ny ms v).1 =
      ms.map (deactivateIfHit (inRange imgW imgH nx ny)) := by
  simp only [handleCollisions, if_neg hg, scanMarkers_eq]
  cases h : lastOr ((ms.filter fun m => m.active && inRange imgW imgH nx ny m).map Marker.type)
    none <;> simp [h]

lemma handleCollisions_hit (imgW imgH nx ny : ℚ) (ms : List Marker) (v : ℚ)
    (hg : ¬(imgW = 0 ∨ imgH = 0)) :
    (handleCollisions imgW imgH nx ny ms v).2.1 =
      ((ms.filter fun m => m.active && inRange imgW imgH nx ny m).map Marker.type).getLast? := by
  simp only [handleCollisions, if_neg hg, scanMarkers_eq]
  rw [← lastOr_none ((ms.filter fun m => m.active && inRange imgW imgH nx ny m).map Marker.type)]
  cases h : lastOr ((ms.filter fun m => m.active && inRange imgW imgH nx ny m).map Marker.type)
    none <;> simp [h]

/-- Counterexample to claim C1: two active markers (first an obstacle,
second a powerup) both sit at the image centre, so with offset `(0,0)` and
a 100×100 image BOTH are within the 24px hit radius.  The step flips BOTH
markers to inactive (the claim says exactly one — the first — is flipped
and the others remain active) and reports the LAST in-range marker's type,
`powerup`, to the caller (the claim says the first's, `obstacle`). -/
theorem c1_counterexample :
    (handleCollisions 100 100 0 0
        [⟨0, 50, 50, .obstacle, true⟩, ⟨1, 50, 50, .powerup, true⟩] 1).1 =
      [⟨0, 50, 50, .obstacle, false⟩, ⟨1, 50, 50, .powerup, false⟩] ∧
    (handleCollisions 100 100 0 0
        [⟨0, 50, 50, .obstacle, true⟩, ⟨1, 50, 50, .powerup, true⟩] 1).2.1 =
      some .powerup := by
  norm_num [handleCollisions, scanMarkers, inRange]

/-- Claim C1, amended: in a collision step with nonzero image dimensions,
EVERY active marker within the hit radius is flipped to inactive in that
step (markers outside the radius and already-inactive markers are
unchanged), and the single type reported to the caller is that of the LAST
in-range active marker in iteration order (`none` when there is no
in-range active marker); at most one hit is reported per step. -/
theorem c1_collision_per_step_amended (imgW imgH nx ny : ℚ) (ms : List Marker) (v : ℚ)
    (hw : imgW ≠ 0) (hh : imgH ≠ 0) :
    (handleCollisions imgW imgH nx ny ms v).1 =
      ms.map (deactivateIfHit (inRange imgW imgH nx ny)) ∧
    (handleCollisions imgW imgH nx ny ms v).2.1 =
      ((ms.filter fun m => m.active && inRange imgW imgH nx ny m).map Marker.type).getLast? := by
  have hg : ¬(imgW = 0 ∨ imgH = 0) := by tauto
  exact ⟨handleCollisions_fst imgW imgH nx ny ms v hg,
    handleCollisions_hit imgW imgH nx ny ms v hg⟩

/-- Witness for C1 (amended) at a concrete one-marker state. -/
theorem c1_collision_per_step_amended_witness :
    (handleCollisions 100 100 0 0 [⟨0, 10, 10, .obstacle, true⟩] 1).1 =
      [⟨0, 10, 10, .obstacle, true⟩].map (deactivateIfHit (inRange 100 100 0 0)) ∧
    (handleCollisions 100 100 0 0 [⟨0, 10, 10, .obstacle, true⟩] 1).2.1 =
      (([⟨0, 10, 10, .obstacle, true⟩].filter
          fun m => m.active && inRange 100 100 0 0 m).map Marker.type).getLast? :=
  c1_collision_per_step_amended 100 100 0 0 [⟨0, 10, 10, .obstacle, true⟩] 1
    (by norm_num) (by norm_num)

lemma deactivateIfHit_active (f : Marker → Bool) (m : Marker) :
    (deactivateIfHit f m).active = true → m.active = true := by
  unfold deactivateIfHit
  split_ifs with h
  · intro hfalse; simp at hfalse
  · exact fun hm => hm

lemma forall2_active_map (g : Marker → Marker)
    (hg : ∀ m, (g m).active = true → m.active = true) :
    ∀ l : List Marker,
      List.Forall₂ (fun m mOut => mOut.active = true → m.active = true) l (l.map g)
  | [] => List.Forall₂.nil
  | m :: rest => List.Forall₂.cons (hg m) (forall2_active_map g hg rest)

lemma map_eq_self_of (g : Marker → Marker) :
    ∀ l : List Marker, (∀ m ∈ l, g m = m) → l.map g = l
  | [], _ => rfl
  | m :: rest, h => by
      rw [List.map_cons, h m (List.mem_cons_self m rest),
        map_eq_self_of g rest fun a ha => h a (List.mem_cons_of_mem m ha)]

/-- Claim C6: collision response is idempotent per marker.  First conjunct:
a collision step never reactivates a marker (pointwise, an output marker is
active only if the input marker was active, so the transition
active→inactive happens at most once and is never undone).  Second
conjunct: a step in which no active marker is within the hit radius (in
particular, when every in-range marker is already inactive) reports no hit
to `onMarkerHit` and leaves the marker list and the velocity unchanged. -/
theorem c6_collision_idempotent (imgW imgH nx ny : ℚ) (ms : List Marker) (v : ℚ) :
    List.Forall₂ (fun m mOut => mOut.active = true → m.active = true) ms
      (handleCollisions imgW imgH nx ny ms v).1 ∧
    ((∀ m ∈ ms, m.active = true → inRange imgW imgH nx ny m = false) →
      handleCollisions imgW imgH nx ny ms v = (ms, none, v)) := by
  by_cases hg : imgW = 0 ∨ imgH = 0
  · constructor
    · have : (handleCollisions imgW imgH nx ny ms v).1 = ms := by
        simp [handleCollisions, hg]
      rw [this]
      exact List.forall₂_same.mpr fun m _ hm => hm
    · intro _
      simp [handleCollisions, hg]
  · constructor
    · rw [handleCollisions_fst imgW imgH nx ny ms v hg]
      exact forall2_active_map _ (deactivateIfHit_active _) ms
    · intro hq
      have hfil : ms.filter (fun m => m.active && inRange imgW imgH nx ny m) = [] := by
        rw [List.filter_eq_nil_iff]
        intro m hm
        simp only [Bool.and_eq_true, not_and]
        intro ha
        rw [hq m hm ha]
        simp
      have hmap : ms.map (deactivateIfHit (inRange imgW imgH nx ny)) = ms := by
        apply map_eq_self_of
        intro m hm
        apply deactivateIfHit_neg
        simp only [Bool.and_eq_true, not_and]
        intro ha
        rw [hq m hm ha]
        simp
      have h1 := handleCollisions_fst imgW imgH nx ny ms v hg
      have h2 := handleCollisions_hit imgW imgH nx ny ms v hg
      rw [hfil] at h2
      simp only [List.map_nil, List.getLast?_nil] at h2
      have h3 : (handleCollisions imgW imgH nx ny ms v).2.2 = v := by
        simp only [handleCollisions, if_neg hg, scanMarkers_eq, lastOr_none, hfil,
          List.map_nil, List.getLast?_nil]
      rw [hmap] at h1
      rcases hc : handleCollisions imgW imgH nx ny ms v with ⟨a, b, c⟩
      rw [hc] at h1 h2 h3
      simp only at h1 h2 h3
      rw [h1, h2, h3]

/-- Witness for C6 at a concrete state whose only in-range marker is
already inactive. -/
theorem c6_collision_idempotent_witness :
    handleCollisions 100 100 0 0 [⟨0, 50, 50, .obstacle, false⟩] 1 =
      ([⟨0, 50, 50, .obstacle, false⟩], none, 1) :=
  (c6_collision_idempotent 100 100 0 0 [⟨0, 50, 50, .obstacle, false⟩] 1).2
    (by norm_num)

lemma speedOrOneSq_ne_zero (s2 : ℚ) : speedOrOneSq s2 ≠ 0 := by
  unfold speedOrOneSq
  split_ifs with h
  · norm_num
  · exact h

lemma hitSpeedSqFull_eq (t : MType) (s2 : ℚ) : hitSpeedSqFull t s2 = hitSpeedSq t s2 := by
  unfold hitSpeedSqFull
  exact if_neg (speedOrOneSq_ne_zero s2)

lemma hitSpeedSq_powerup (s2 : ℚ) :
    hitSpeedSq .powerup s2 =
      if 2.3 * 2.3 * s2 > 1.8 * 1.8 then 1.8 * 1.8 else 2.3 * 2.3 * s2 := rfl

lemma hitSpeedSq_obstacle (s2 : ℚ) : hitSpeedSq .obstacle s2 = 0.15 * 0.15 * s2 := rfl

/-- Counterexample to claim C3, through the full collision routine at a
resolved powerup hit (a single active powerup marker at the image centre,
offset `(0,0)`, 100×100 image).  With incoming velocity `(0, 0)` (squared
speed 0) the resulting squared speed is 0 — the velocity stays zero and no
fixed nonzero nudge is assigned, because the guard tests
`Math.hypot(vx,vy) || 1`, which is 1 (never 0) at zero speed.  With
incoming squared speed 4 (speed 2 > cap 1.8) the resulting squared speed is
`1.8² = 3.24 < 4` — a strict decrease, not an increase. -/
theorem c3_counterexample :
    (handleCollisions 100 100 0 0 [⟨0, 50, 50, .powerup, true⟩] 0).2.1 = some .powerup ∧
    (handleCollisions 100 100 0 0 [⟨0, 50, 50, .powerup, true⟩] 0).2.2 = 0 ∧
    (handleCollisions 100 100 0 0 [⟨0, 50, 50, .powerup, true⟩] 4).2.2 = 1.8 * 1.8 ∧
    (1.8 : ℚ) * 1.8 < 4 := by
  norm_num [handleCollisions, scanMarkers, inRange, hitSpeedSqFull, hitSpeedSq, speedOrOneSq]

/-- Claim C3, amended (stated on squared speeds, which order exactly as the
speeds): a powerup hit strictly increases the resultant speed only when the
incoming speed is strictly between 0 and the 1.8 px/ms cap, the result
staying bounded by the cap; at or above the cap the powerup hit clamps the
speed to exactly 1.8 (not an increase); an obstacle hit strictly decreases
any positive speed; and at incoming speed exactly zero BOTH responses leave
the velocity at zero — the fixed nonzero nudge is never produced, since the
`speed === 0` test compares against `Math.hypot(vx,vy) || 1`, a value that
is 1 whenever the true speed is 0. -/
theorem c3_velocity_response_amended (s2 : ℚ) :
    (0 < s2 → s2 < 1.8 * 1.8 →
      s2 < hitSpeedSqFull .powerup s2 ∧ hitSpeedSqFull .powerup s2 ≤ 1.8 * 1.8) ∧
    (1.8 * 1.8 ≤ s2 → hitSpeedSqFull .powerup s2 = 1.8 * 1.8) ∧
    (0 < s2 → hitSpeedSqFull .obstacle s2 < s2) ∧
    hitSpeedSqFull .powerup 0 = 0 ∧ hitSpeedSqFull .obstacle 0 = 0 := by
  rw [hitSpeedSqFull_eq, hitSpeedSqFull_eq, hitSpeedSqFull_eq, hitSpeedSqFull_eq,
    hitSpeedSq_powerup, hitSpeedSq_powerup, hitSpeedSq_obstacle, hitSpeedSq_obstacle]
  refine ⟨?_, ?_, ?_, ?_, ?_⟩
  · intro h0 hcap
    split_ifs with hb
    · constructor
      · exact hcap
      · norm_num
    · push_neg at hb
      constructor
      · nlinarith
      · exact hb
  · intro hge
    split_ifs with hb
    · rfl
    · push_neg at hb
      nlinarith
  · intro h0
    nlinarith
  · norm_num
  · norm_num

/-- Witness for C3 (amended) at the concrete incoming squared speed 1
(speed 1 px/ms, strictly between 0 and the cap). -/
theorem c3_velocity_response_amended_witness :
    (1 : ℚ) < hitSpeedSqFull .powerup 1 ∧ hitSpeedSqFull .powerup 1 ≤ 1.8 * 1.8 ∧
    hitSpeedSqFull .obstacle 1 < 1 ∧ hitSpeedSqFull .powerup 0 = 0 := by
  obtain ⟨h1, _, h3, h4, _⟩ := c3_velocity_response_amended 1
  obtain ⟨ha, hb⟩ := h1 (by norm_num) (by norm_num)
  exact ⟨ha, hb, h3 (by norm_num), (c3_velocity_response_amended 0).2.2.2.1⟩

lemma scoreTick_nonneg (dt prev : ℚ) : 0 ≤ scoreTick dt prev := by
  unfold scoreTick
  split_ifs <;> linarith

lemma scoreStep_nonneg (s : ℚ) (h : 0 ≤ s) (e : ScoreEvent) : 0 ≤ scoreStep s e := by
  cases e with
  | tick dt => exact scoreTick_nonneg dt s
  | hit t =>
    cases t with
    | obstacle => exact le_max_left 0 _
    | powerup => simp only [scoreStep, scoreHit]; linarith

/-- Claim C10: the score never goes negative.  Starting from any
nonnegative score (the App starts at 100000), every sequence of per-frame
countdown ticks and marker-hit deltas keeps the score ≥ 0: the tick floors
at 0, the obstacle penalty is `max(0, score − 500)`, and the powerup bonus
adds 500. -/
theorem c10_score_nonneg (s0 : ℚ) (h : 0 ≤ s0) (evs : List ScoreEvent) :
    0 ≤ runScore s0 evs := by
  induction evs generalizing s0 with
  | nil => simpa [runScore] using h
  | cons e rest ih =>
    rw [runScore, List.foldl_cons]
    exact ih (scoreStep s0 e) (scoreStep_nonneg s0 h e)

/-- Witness for C10 on a concrete event sequence from the initial score. -/
theorem c10_score_nonneg_witness :
    0 ≤ runScore 100000
      [ScoreEvent.tick 16, ScoreEvent.hit .obstacle, ScoreEvent.hit .powerup,
       ScoreEvent.tick 200000, ScoreEvent.hit .obstacle] :=
  c10_score_nonneg 100000 (by norm_num) _

lemma zoomSample_fst (x y s t : ℚ) : (zoomSample x y s t).1 = x * zoomRemaining t := by
  simp only [zoomSample, zoomRemaining]
  ring

lemma zoomSample_snd (x y s t : ℚ) : (zoomSample x y s t).2.1 = y * zoomRemaining t := by
  simp only [zoomSample, zoomRemaining]
  ring

lemma zoomSample_size (x y s t : ℚ) :
    (zoomSample x y s t).2.2 = 100 + (s - 100) * zoomRemaining t := by
  simp only [zoomSample, zoomRemaining]
  ring

lemma zoomRemaining_nonneg (t : ℚ) : 0 ≤ zoomRemaining t := by
  have h : min (t / 800) 1 ≤ 1 := min_le_right _ _
  have h2 : (0 : ℚ) ≤ 1 - min (t / 800) 1 := by linarith
  exact pow_nonneg h2 3

lemma zoomRemaining_le_one (t : ℚ) (ht : 0 ≤ t) : zoomRemaining t ≤ 1 := by
  have h0 : (0 : ℚ) ≤ min (t / 800) 1 := le_min (by positivity) zero_le_one
  have h1 : 1 - min (t / 800) 1 ≤ 1 := by linarith
  have h2 : (0 : ℚ) ≤ 1 - min (t / 800) 1 := by linarith [min_le_right (t / 800) (1 : ℚ)]
  calc (1 - min (t / 800) 1) ^ 3 ≤ 1 ^ 3 := pow_le_pow_left₀ h2 h1 3
    _ = 1 := one_pow 3

lemma zoomRemaining_anti {t1 t2 : ℚ} (h12 : t1 ≤ t2) :
    zoomRemaining t2 ≤ zoomRemaining t1 := by
  have hd : t1 / 800 ≤ t2 / 800 := by linarith
  have hp : min (t1 / 800) 1 ≤ min (t2 / 800) 1 := min_le_min hd le_rfl
  have ha : (0 : ℚ) ≤ 1 - min (t2 / 800) 1 := by linarith [min_le_right (t2 / 800) (1 : ℚ)]
  exact pow_le_pow_left₀ ha (by linarith) 3

lemma between_of_scale {v c : ℚ} (h0 : 0 ≤ c) (h1 : c ≤ 1) :
    min v 0 ≤ v * c ∧ v * c ≤ max v 0 := by
  rcases le_or_lt 0 v with hv | hv
  · refine ⟨le_trans (min_le_right _ _) (mul_nonneg hv h0), le_trans ?_ (le_max_left _ _)⟩
    exact mul_le_of_le_one_right hv h1
  · constructor
    · refine le_trans (min_le_left _ _) ?_
      nlinarith
    · refine le_trans ?_ (le_max_right v 0)
      nlinarith

/-- Claim C9: the zoom-reveal interpolation sampled at `t = 0` yields
exactly the captured start state; at every `t ≥ 800` (the duration) it
yields exactly the neutral state (offset `(0,0)`, size 100%); and for
`0 ≤ t1 ≤ t2` each component of the sample at `t2` is at least as close to
its neutral value as the sample at `t1` (monotone approach), every sample
for `t ≥ 0` staying between its start value and its neutral value (no
overshoot). -/
theorem c9_zoom_interpolation (x y s : ℚ) :
    zoomSample x y s 0 = (x, y, s) ∧
    (∀ t : ℚ, 800 ≤ t → zoomSample x y s t = (0, 0, 100)) ∧
    (∀ t1 t2 : ℚ, 0 ≤ t1 → t1 ≤ t2 →
      |(zoomSample x y s t2).1| ≤ |(zoomSample x y s t1).1| ∧
      |(zoomSample x y s t2).2.1| ≤ |(zoomSample x y s t1).2.1| ∧
      |(zoomSample x y s t2).2.2 - 100| ≤ |(zoomSample x y s t1).2.2 - 100|) ∧
    (∀ t : ℚ, 0 ≤ t →
      min x 0 ≤ (zoomSample x y s t).1 ∧ (zoomSample x y s t).1 ≤ max x 0 ∧
      min y 0 ≤ (zoomSample x y s t).2.1 ∧ (zoomSample x y s t).2.1 ≤ max y 0 ∧
      min s 100 ≤ (zoomSample x y s t).2.2 ∧ (zoomSample x y s t).2.2 ≤ max s 100) := by
  have habs : ∀ (v : ℚ) {t1 t2 : ℚ}, 0 ≤ t1 → t1 ≤ t2 →
      |v * zoomRemaining t2| ≤ |v * zoomRemaining t1| := by
    intro v t1 t2 _ h12
    rw [abs_mul, abs_mul, abs_of_nonneg (zoomRemaining_nonneg t2),
      abs_of_nonneg (zoomRemaining_nonneg t1)]
    exact mul_le_mul_of_nonneg_left (zoomRemaining_anti h12) (abs_nonneg v)
  refine ⟨?_, ?_, ?_, ?_⟩
  · have hmin : min ((0 : ℚ) / 800) 1 = 0 := by norm_num
    simp only [zoomSample, hmin]
    norm_num
  · intro t ht
    have hmin : min (t / 800) 1 = 1 := min_eq_right (by linarith)
    simp only [zoomSample, hmin]
    norm_num
  · intro t1 t2 h1 h12
    rw [zoomSample_fst, zoomSample_fst, zoomSample_snd, zoomSample_snd,
      zoomSample_size, zoomSample_size]
    refine ⟨habs x h1 h12, habs y h1 h12, ?_⟩
    have hx : ∀ u : ℚ, 100 + (s - 100) * zoomRemaining u - 100 = (s - 100) * zoomRemaining u := by
      intro u; ring
    rw [hx, hx]
    exact habs (s - 100) h1 h12
  · intro t ht
    have hc0 := zoomRemaining_nonneg t
    have hc1 := zoomRemaining_le_one t ht
    rw [zoomSample_fst, zoomSample_snd, zoomSample_size]
    obtain ⟨hx1, hx2⟩ := between_of_scale (v := x) hc0 hc1
    obtain ⟨hy1, hy2⟩ := between_of_scale (v := y) hc0 hc1
    obtain ⟨hs1, hs2⟩ := between_of_scale (v := s - 100) hc0 hc1
    refine ⟨hx1, hx2, hy1, hy2, ?_, ?_⟩
    · rcases le_total s 100 with hcase | hcase
      · have : min s 100 = s := min_eq_left hcase
        rw [this]
        have : min (s - 100) 0 = s - 100 := min_eq_left (by linarith)
        linarith [this ▸ hs1]
      · have : min s 100 = 100 := min_eq_right hcase
        rw [this]
        have : min (s - 100) 0 = 0 := min_eq_right (by linarith)
        linarith [this ▸ hs1]
    · rcases le_total s 100 with hcase | hcase
      · have : max s 100 = 100 := max_eq_right hcase
        rw [this]
        have : max (s - 100) 0 = 0 := max_eq_right (by linarith)
        linarith [this ▸ hs2]
      · have : max s 100 = s := max_eq_left hcase
        rw [this]
        have : max (s - 100) 0 = s - 100 := max_eq_left (by linarith)
        linarith [this ▸ hs2]

/-- Witness for C9 at the concrete start state (offset (5, −3), size 600%)
and sample times 0, 400 and 800. -/
theorem c9_zoom_interpolation_witness :
    zoomSample 5 (-3) 600 0 = (5, -3, 600) ∧
    zoomSample 5 (-3) 600 800 = (0, 0, 100) ∧
    |(zoomSample 5 (-3) 600 400).1| ≤ |(zoomSample 5 (-3) 600 0).1| := by
  obtain ⟨h1, h2, h3, _⟩ := c9_zoom_interpolation 5 (-3) 600
  exact ⟨h1, h2 800 le_rfl, (h3 0 400 le_rfl (by norm_num)).1⟩

lemma isFarEnough_spec {x y : ℚ} {l : List Marker} (h : isFarEnough x y l = true) :
    ∀ m ∈ l, 25 ≤ (x - m.x) * (x - m.x) + (y - m.y) * (y - m.y) := by
  intro m hm
  have hb := List.all_eq_true.mp h m hm
  simp only [Bool.not_eq_eq_eq_not, Bool.not_true, decide_eq_false_iff_not, not_lt] at hb
  linarith [hb]

lemma genLoop_pairwise (rnd : Nat → ℚ × ℚ) (typeOf : Nat → MType) (count : Nat) :
    ∀ (fuel attempt : Nat) (items : List Marker),
      items.Pairwise FarApart →
      (genLoop rnd typeOf count fuel attempt items).Pairwise FarApart := by
  intro fuel
  induction fuel with
  | zero => intro attempt items h; exact h
  | succ n ih =>
    intro attempt items h
    simp only [genLoop]
    split_ifs with hlen hfar
    · apply ih
      rw [List.pairwise_append]
      refine ⟨h, List.pairwise_singleton _ _, ?_⟩
      intro a ha b hb
      rw [List.mem_singleton] at hb
      subst hb
      have hspec := isFarEnough_spec hfar a ha
      unfold FarApart
      dsimp only
      nlinarith [hspec]
    · exact ih (attempt + 1) items h
    · exact h

lemma genLoop_field (rnd : Nat → ℚ × ℚ) (typeOf : Nat → MType) (count : Nat)
    (hr : ∀ n, 0 ≤ (rnd n).1 ∧ (rnd n).1 < 1 ∧ 0 ≤ (rnd n).2 ∧ (rnd n).2 < 1) :
    ∀ (fuel attempt : Nat) (items : List Marker),
      (∀ m ∈ items, InField m) →
      ∀ m ∈ genLoop rnd typeOf count fuel attempt items, InField m := by
  intro fuel
  induction fuel with
  | zero => intro attempt items h; exact h
  | succ n ih =>
    intro attempt items h
    simp only [genLoop]
    split_ifs with hlen hfar
    · apply ih
      intro m hm
      rw [List.mem_append] at hm
      rcases hm with hm | hm
      · exact h m hm
      · rw [List.mem_singleton] at hm
        subst hm
        obtain ⟨h1, h2, h3, h4⟩ := hr attempt
        unfold InField
        dsimp only
        refine ⟨by nlinarith, by nlinarith, by nlinarith, by nlinarith⟩
    · exact ih (attempt + 1) items h
    · exact h

lemma genLoop_length (rnd : Nat → ℚ × ℚ) (typeOf : Nat → MType) (count : Nat) :
    ∀ (fuel attempt : Nat) (items : List Marker),
      items.length ≤ count →
      (genLoop rnd typeOf count fuel attempt items).length ≤ count := by
  intro fuel
  induction fuel with
  | zero => intro attempt items h; exact h
  | succ n ih =>
    intro attempt items h
    simp only [genLoop]
    split_ifs with hlen hfar
    · apply ih
      rw [List.length_append, List.length_singleton]
      omega
    · exact ih (attempt + 1) items h
    · exact h

lemma genLoop_stream (typeOf : Nat → MType) (count : Nat) :
    ∀ (fuel attempt : Nat) (items : List Marker) (rnd rnd2 : Nat → ℚ × ℚ),
      (∀ k, attempt ≤ k → k < attempt + fuel → rnd k = rnd2 k) →
      genLoop rnd typeOf count fuel attempt items =
        genLoop rnd2 typeOf count fuel attempt items := by
  intro fuel
  induction fuel with
  | zero => intro attempt items rnd rnd2 _; rfl
  | succ n ih =>
    intro attempt items rnd rnd2 h
    have he : rnd attempt = rnd2 attempt := h attempt le_rfl (by omega)
    have hrec : ∀ items2 : List Marker,
        genLoop rnd typeOf count n (attempt + 1) items2 =
          genLoop rnd2 typeOf count n (attempt + 1) items2 :=
      fun items2 => ih (attempt + 1) items2 rnd rnd2 fun k hk1 hk2 => h k (by omega) (by omega)
    simp only [genLoop, he]
    split_ifs with hlen hfar
    · rw [hrec]
    · rw [hrec]
    · rfl

/-- Claim C5: the markers produced by the mount-time rejection-sampling
initializer (for any stream of `Math.random()` draws in `[0,1)`) are
pairwise at squared distance at least `25` (i.e. Euclidean distance at
least the minimum spacing 5), every coordinate lies in the `[10, 90]`
percent band, the returned count never exceeds the requested count
(50 for the feature-complete variant, 10 for the earlier variant), and the
loop consumes at most the fixed attempt budget: the result depends only on
the first 3000 draws (the definition itself terminates by construction on
its fuel). -/
theorem c5_marker_generation (rnd : Nat → ℚ × ℚ)
    (hr : ∀ n, 0 ≤ (rnd n).1 ∧ (rnd n).1 < 1 ∧ 0 ≤ (rnd n).2 ∧ (rnd n).2 < 1) :
    (markersInit rnd).Pairwise FarApart ∧
    (∀ m ∈ markersInit rnd, InField m) ∧
    (markersInit rnd).length ≤ 50 ∧
    (markersInitAlt rnd).Pairwise FarApart ∧
    (∀ m ∈ markersInitAlt rnd, InField m) ∧
    (markersInitAlt rnd).length ≤ 10 ∧
    (∀ rnd2 : Nat → ℚ × ℚ, (∀ k, k < 3000 → rnd k = rnd2 k) →
      markersInit rnd = markersInit rnd2) := by
  refine ⟨genLoop_pairwise _ _ _ _ _ _ List.Pairwise.nil,
    genLoop_field _ _ _ hr _ _ _ (by intro m hm; exact absurd hm (List.not_mem_nil m)),
    genLoop_length _ _ _ _ _ _ (by simp),
    genLoop_pairwise _ _ _ _ _ _ List.Pairwise.nil,
    genLoop_field _ _ _ hr _ _ _ (by intro m hm; exact absurd hm (List.not_mem_nil m)),
    genLoop_length _ _ _ _ _ _ (by simp), ?_⟩
  intro rnd2 hagree
  exact genLoop_stream _ _ _ _ _ rnd rnd2 fun k hk1 hk2 => hagree k (by omega)

/-- Witness for C5 on the concrete constant draw stream `(0, 0)`. -/
theorem c5_marker_generation_witness :
    (markersInit fun _ => ((0 : ℚ), (0 : ℚ))).Pairwise FarApart ∧
    (markersInit fun _ => ((0 : ℚ), (0 : ℚ))).length ≤ 50 :=
  ⟨(c5_marker_generation (fun _ => (0, 0)) (by norm_num)).1,
   (c5_marker_generation (fun _ => (0, 0)) (by norm_num)).2.2.1⟩

end DeluluCelulu
